import Mathlib

/-!
Shallow embedding of the word-document mutation core (`word_server.py`):
the structural document model (paragraphs, runs, tables, cells, styles,
sections) and the in-place mutation operations the specification describes.
Text is modelled as `List Char`; fallible operations return `Except`.
-/

deriving instance DecidableEq for Except

namespace WordServer

/-- Paragraph alignment values (`WD_PARAGRAPH_ALIGNMENT`). -/
inductive Alignment where
  | left
  | center
  | right
  | justify
deriving Repr, DecidableEq

/-- A run: a contiguous span of text with one formatting set.  Nullable
formatting fields (`Option`) mean "inherit from the style". -/
structure TextRun where
  text : List Char
  bold : Option Bool := none
  italic : Option Bool := none
  underline : Option Bool := none
  colorRGB : Option (Nat × Nat × Nat) := none
  fontSize : Option Int := none
  fontName : Option String := none
deriving Repr, DecidableEq

/-- A fresh run holding `t`, as produced by `paragraph.add_run(t)`. -/
def mkRun (t : List Char) : TextRun := { text := t }

/-- `run.clear()`: removes the run's content, keeping its formatting. -/
def clearRun (r : TextRun) : TextRun := { r with text := [] }

/-- A paragraph: ordered runs plus paragraph-level alignment. -/
structure Paragraph where
  runs : List TextRun := []
  alignment : Option Alignment := none
deriving Repr, DecidableEq

/-- `paragraph.text`: concatenation of the run texts in order. -/
def paraText (p : Paragraph) : List Char := (p.runs.map TextRun.text).flatten

/-- A border element inside a cell's `w:tcBorders` container: the edge tag
plus the `w:val`, `w:sz`, `w:space`, `w:color` attributes. -/
structure BorderElem where
  edge : String
  val : String
  sz : String
  space : String
  color : String
deriving Repr, DecidableEq

/-- A table cell: its own paragraphs plus the raw `w:tcBorders` container
(`none` when the container has not been created). -/
structure Cell where
  paragraphs : List Paragraph := [{}]
  tcBorders : Option (List BorderElem) := none
deriving Repr, DecidableEq

/-- A cell as freshly allocated inside a new table: one empty paragraph,
no raw border container. -/
def emptyCell : Cell := {}

/-- `cell.text`: paragraph texts joined by newlines. -/
def cellText (c : Cell) : List Char :=
  List.intercalate ['\n'] (c.paragraphs.map paraText)

/-- A table: a rows × cols grid of cells plus the table style name. -/
structure Table where
  rows : Nat
  cols : Nat
  cells : List (List Cell)
  style : Option String := none
deriving Repr, DecidableEq

/-- Style types (`WD_STYLE_TYPE`). -/
inductive StyleType where
  | paragraph
  | character
  | table
  | numbering
  | other
deriving Repr, DecidableEq

/-- A named style definition. -/
structure Style where
  name : String
  styleType : StyleType
  baseStyle : Option String := none
  fontBold : Option Bool := none
  fontItalic : Option Bool := none
  fontSize : Option Int := none
  fontName : Option String := none
  fontColorRGB : Option (Nat × Nat × Nat) := none
  alignment : Option Alignment := none
deriving Repr, DecidableEq

/-- A section: page geometry and orientation. -/
structure Sect where
  pageWidth : Nat := 0
  pageHeight : Nat := 0
  portrait : Bool := true
deriving Repr, DecidableEq

/-- A parsed document: body paragraphs, tables, sections, styles. -/
structure Doc where
  paragraphs : List Paragraph := []
  tables : List Table := []
  sections : List Sect := [{}]
  styles : List Style := []
deriving Repr, DecidableEq

/-! ## Text formatting over a sub-range (`format_text`) -/

/-- The closed colour-name map used by run and style formatting
(names mapped to fixed RGB triples). -/
def color_map : List (String × (Nat × Nat × Nat)) :=
  [("red", (255, 0, 0)), ("blue", (0, 0, 255)), ("green", (0, 128, 0)),
   ("yellow", (255, 255, 0)), ("black", (0, 0, 0)), ("white", (255, 255, 255))]

/-- ASCII lowercasing, modelling Python `lower()` on the ASCII enum names
involved (the kernel-opaque platform string primitives are avoided). -/
def pyLower (s : String) : String := String.mk (s.data.map Char.toLower)

/-- The requested formatting attributes of a `format_text` call. -/
structure FormatAttrs where
  bold : Option Bool := none
  italic : Option Bool := none
  underline : Option Bool := none
  color : Option String := none
  fontSize : Option Int := none
  fontName : Option String := none
deriving Repr, DecidableEq

/-- Set the bold flag when requested. -/
def applyBold (a : FormatAttrs) (r : TextRun) : TextRun :=
  match a.bold with
  | none => r
  | some b => { r with bold := some b }

/-- Set the italic flag when requested. -/
def applyItalic (a : FormatAttrs) (r : TextRun) : TextRun :=
  match a.italic with
  | none => r
  | some b => { r with italic := some b }

/-- Set the underline flag when requested. -/
def applyUnderline (a : FormatAttrs) (r : TextRun) : TextRun :=
  match a.underline with
  | none => r
  | some b => { r with underline := some b }

/-- Set the font colour when the name is truthy and recognised; an unknown
name is ignored (the index-map fallback never fires, since its keys are all
in `color_map`). -/
def applyColor (a : FormatAttrs) (r : TextRun) : TextRun :=
  match a.color with
  | none => r
  | some c =>
      if c = "" then r
      else match color_map.lookup (pyLower c) with
        | some rgb => { r with colorRGB := some rgb }
        | none => r

/-- Set the font size when truthy (a zero size is falsy and skipped). -/
def applyFontSize (a : FormatAttrs) (r : TextRun) : TextRun :=
  match a.fontSize with
  | none => r
  | some n => if n = 0 then r else { r with fontSize := some n }

/-- Set the font name when truthy (an empty name is falsy and skipped). -/
def applyFontName (a : FormatAttrs) (r : TextRun) : TextRun :=
  match a.fontName with
  | none => r
  | some f => if f = "" then r else { r with fontName := some f }

/-- Apply the requested attributes to the freshly created target run, in the
order the code sets them. -/
def applyAttrs (a : FormatAttrs) (r : TextRun) : TextRun :=
  applyFontName a (applyFontSize a (applyColor a (applyUnderline a
    (applyItalic a (applyBold a r)))))

/-- `format_text`: formats `text[start_pos:end_pos]` of the paragraph at
`paragraph_index`.  Existing runs are cleared in place (their empty shells
remain), then up-to-three new runs are appended: the text before the range,
the target with the requested attributes, the text after the range. -/
def format_text (doc : Doc) (paragraph_index start_pos end_pos : Int)
    (attrs : FormatAttrs) : Except String Doc :=
  if paragraph_index < 0 ∨ paragraph_index ≥ (doc.paragraphs.length : Int) then
    .error "Invalid paragraph index."
  else
    let i := paragraph_index.toNat
    let paragraph := doc.paragraphs.getD i {}
    let text := paraText paragraph
    if start_pos < 0 ∨ end_pos > (text.length : Int) ∨ start_pos ≥ end_pos then
      .error "Invalid text positions."
    else
      let s := start_pos.toNat
      let e := end_pos.toNat
      let target_text := (text.take e).drop s
      let cleared := paragraph.runs.map clearRun
      let before := if 0 < s then [mkRun (text.take s)] else []
      let run_target := applyAttrs attrs (mkRun target_text)
      let after := if e < text.length then [mkRun (text.drop e)] else []
      let p := { paragraph with runs := cleared ++ before ++ [run_target] ++ after }
      .ok { doc with paragraphs := doc.paragraphs.set i p }

/-! ## Find and replace (`find_and_replace_text`, `search_and_replace`) -/

/-- Python substring containment `old in s`: some split of `s` exposes `old`
(an empty needle is contained in every string). -/
def pyContains (old : List Char) : List Char → Bool
  | [] => old.isEmpty
  | c :: rest => old.isPrefixOf (c :: rest) || pyContains old rest

/-- Left-to-right non-overlapping replacement scan for a nonempty needle:
at a match, emit the replacement and then pass over the rest of the matched
needle (the skip counter); otherwise emit one character and continue.  The
recursion is structural so that the scan evaluates by kernel reduction. -/
def pyReplaceScan (old new : List Char) : Nat → List Char → List Char
  | _, [] => []
  | 0, c :: rest =>
      if old.isPrefixOf (c :: rest) then new ++ pyReplaceScan old new (old.length - 1) rest
      else c :: pyReplaceScan old new 0 rest
  | skip + 1, _ :: rest => pyReplaceScan old new skip rest

/-- Python `s.replace(old, new)`: an empty needle inserts `new` at every
gap; otherwise the left-to-right non-overlapping scan. -/
def pyReplace (old new s : List Char) : List Char :=
  match old with
  | [] => new ++ (s.map (fun c => c :: new)).flatten
  | _ :: _ => pyReplaceScan old new 0 s

/-- Rewrite one run: replaced (counting 1) only when its text contains
`old` as a substring. -/
def replaceRun (old new : List Char) (r : TextRun) : TextRun × Nat :=
  if pyContains old r.text then
    ({ r with text := pyReplace old new r.text }, 1)
  else (r, 0)

/-- Rewrite one paragraph.  The code first tests `old in para.text` and only
then scans the runs; each rewritten run increments the count by one. -/
def replacePara (old new : List Char) (p : Paragraph) : Paragraph × Nat :=
  if pyContains old (paraText p) then
    let results := p.runs.map (replaceRun old new)
    ({ p with runs := results.map Prod.fst }, (results.map Prod.snd).sum)
  else (p, 0)

/-- Rewrite one cell: every paragraph of the cell. -/
def replaceCell (old new : List Char) (c : Cell) : Cell × Nat :=
  let results := c.paragraphs.map (replacePara old new)
  ({ c with paragraphs := results.map Prod.fst }, (results.map Prod.snd).sum)

/-- Rewrite one table: every cell of every row. -/
def replaceTable (old new : List Char) (t : Table) : Table × Nat :=
  let results := t.cells.map (fun row => row.map (replaceCell old new))
  ({ t with cells := results.map (fun row => row.map Prod.fst) },
   (results.map (fun row => (row.map Prod.snd).sum)).sum)

/-- `find_and_replace_text`: scans body paragraphs, then every table-cell
paragraph; returns the rewritten document and the number of runs rewritten. -/
def find_and_replace_text (doc : Doc) (old_text new_text : List Char) :
    Doc × Nat :=
  let paraResults := doc.paragraphs.map (replacePara old_text new_text)
  let tableResults := doc.tables.map (replaceTable old_text new_text)
  ({ doc with
      paragraphs := paraResults.map Prod.fst,
      tables := tableResults.map Prod.fst },
   (paraResults.map Prod.snd).sum + (tableResults.map Prod.snd).sum)

/-- Outcome of `search_and_replace`. -/
inductive SearchReplaceResult where
  | replaced (count : Nat)
  | noOccurrences
deriving Repr, DecidableEq

/-- `search_and_replace`: loads the on-disk document, runs the replacement in
memory, and saves back only when the count is positive; otherwise it reports
no occurrences and the on-disk document stays as it was. -/
def search_and_replace (disk : Doc) (find_text replace_text : List Char) :
    SearchReplaceResult × Doc :=
  let r := find_and_replace_text disk find_text replace_text
  if 0 < r.2 then (.replaced r.2, r.1) else (.noOccurrences, disk)

/-- All runs of a cell, in order. -/
def cellRuns (c : Cell) : List TextRun := (c.paragraphs.map Paragraph.runs).flatten

/-- All runs of a table, row-major. -/
def tableRuns (t : Table) : List TextRun :=
  (t.cells.map (fun row => (row.map cellRuns).flatten)).flatten

/-- All runs `find_and_replace_text` scans: body paragraphs first, then
every table-cell paragraph. -/
def docRuns (doc : Doc) : List TextRun :=
  (doc.paragraphs.map Paragraph.runs).flatten ++ (doc.tables.map tableRuns).flatten

/-! ## Paragraph deletion (`delete_paragraph`) -/

/-- `delete_paragraph`: validates the index, then detaches the paragraph's
node from its parent. -/
def delete_paragraph (doc : Doc) (paragraph_index : Int) : Except String Doc :=
  if paragraph_index < 0 ∨ paragraph_index ≥ (doc.paragraphs.length : Int) then
    .error "Invalid paragraph index."
  else
    .ok { doc with paragraphs := doc.paragraphs.eraseIdx paragraph_index.toNat }

/-! ## Paragraph alignment (`set_paragraph_alignment`) -/

/-- The closed alignment-name map; lookups go through `lower()`. -/
def alignment_map : List (String × Alignment) :=
  [("left", .left), ("center", .center), ("right", .right),
   ("justify", .justify)]

/-- `set_paragraph_alignment`: validates the paragraph index, then the
alignment name (after lowercasing), then sets the paragraph's alignment. -/
def set_paragraph_alignment (doc : Doc) (paragraph_index : Int)
    (alignment : String) : Except String Doc :=
  if paragraph_index < 0 ∨ paragraph_index ≥ (doc.paragraphs.length : Int) then
    .error "Invalid paragraph index."
  else
    match alignment_map.lookup (pyLower alignment) with
    | none => .error "Invalid alignment. Supported values: left, center, right, justify."
    | some a =>
        let i := paragraph_index.toNat
        let p := doc.paragraphs.getD i {}
        .ok { doc with paragraphs := doc.paragraphs.set i { p with alignment := some a } }

/-! ## Raw cell-border mutation (`set_cell_border`) -/

/-- The edge keys recognised by `set_cell_border`. -/
def isEdgeKey (k : String) : Bool :=
  k = "top" || k = "left" || k = "bottom" || k = "right"

/-- The border element built for edge `k` from the keyword arguments
(`val`/`sz`/`space`/`color` default to single/4/0/auto). -/
def mkBorderElem (k : String) (val sz space color : Option String) : BorderElem :=
  { edge := k, val := val.getD "single", sz := sz.getD "4",
    space := space.getD "0", color := color.getD "auto" }

/-- `set_cell_border`: iterates the keyword keys in order; each edge key
appends a fresh border element to the cell's `w:tcBorders` container,
creating the container on first use.  Elements are appended, never
replaced. -/
def set_cell_border (cell : Cell) (kwarg_keys : List String)
    (val sz space color : Option String) : Cell :=
  kwarg_keys.foldl
    (fun c k =>
      if isEdgeKey k then
        let element := mkBorderElem k val sz space color
        match c.tcBorders with
        | none => { c with tcBorders := some [element] }
        | some els => { c with tcBorders := some (els ++ [element]) }
      else c)
    cell

/-- The border elements of a cell's container, read as a plain list
(an absent container reads as the empty list). -/
def borderList (c : Cell) : List BorderElem := c.tcBorders.getD []

/-- The border elements one `set_cell_border` call generates: one per
edge key among the keyword keys, in order. -/
def edgeElems (ks : List String) (val sz space color : Option String) :
    List BorderElem :=
  (ks.filter isEdgeKey).map (fun k => mkBorderElem k val sz space color)

/-! ## Style creation (`create_style`) -/

/-- Style lookup by name (`doc.styles[name]`, `KeyError` when absent). -/
def styleLookup (styles : List Style) (name : String) : Option Style :=
  styles.find? (fun s => s.name = name)

/-- `create_style`: if a style of that name exists it is returned and nothing
changes; otherwise a new style is added with the requested base style (falling
back to Normal when the base does not resolve), font and paragraph
properties. -/
def create_style (doc : Doc) (style_name : String) (style_type : StyleType)
    (base_style : Option String) (font_bold font_italic : Option Bool)
    (font_size : Option Int) (font_name : Option String)
    (font_color : Option String) (para_alignment : Option Alignment) :
    Doc × Option Style :=
  match styleLookup doc.styles style_name with
  | some style => (doc, some style)
  | none =>
      let base := match base_style with
        | none => none
        | some b => match styleLookup doc.styles b with
            | some _ => some b
            | none => some "Normal"
      let colorRGB := match font_color with
        | none => none
        | some c => color_map.lookup (pyLower c)
      let new_style : Style :=
        { name := style_name, styleType := style_type, baseStyle := base,
          fontBold := font_bold, fontItalic := font_italic,
          fontSize := font_size, fontName := font_name,
          fontColorRGB := colorRGB, alignment := para_alignment }
      ({ doc with styles := doc.styles ++ [new_style] }, some new_style)

/-! ## Table creation (`add_table`) -/

/-- A paragraph holding exactly one run of text `s`, as produced by the
`cell.text = s` setter. -/
def textPara (s : String) : Paragraph := { runs := [mkRun s.toList] }

/-- `cell.text = s`: the cell's content is cleared and replaced by one
paragraph holding `s`; the raw property container is untouched. -/
def setCellContent (c : Cell) (s : String) : Cell :=
  { c with paragraphs := [textPara s] }

/-- Write `s` into cell `(i, j)` of the grid (`table.cell(i, j).text = s`). -/
def setCellText (cells : List (List Cell)) (i j : Nat) (s : String) :
    List (List Cell) :=
  let row := cells.getD i []
  cells.set i (row.set j (setCellContent (row.getD j emptyCell) s))

/-- `add_table`: allocates a rows × cols grid of empty cells, applies the
default "Table Grid" style, and fills cells row-major from `data`; the
enumeration breaks at row `rows` and column `cols`, which truncates `data`
to its first `rows` rows and each row to its first `cols` values. -/
def add_table (doc : Doc) (rows cols : Nat) (data : List (List String)) : Doc :=
  let grid : List (List Cell) := List.replicate rows (List.replicate cols emptyCell)
  let filled := (data.take rows).enum.foldl
    (fun cs irow =>
      (irow.2.take cols).enum.foldl
        (fun cs2 jv => setCellText cs2 irow.1 jv.1 jv.2) cs)
    grid
  { doc with
      tables := doc.tables ++
        [{ rows := rows, cols := cols, cells := filled, style := some "Table Grid" }] }

/-- A completely fresh document. -/
def blankDoc : Doc := {}

/-! ## Document properties (`get_document_properties`) -/

/-- Word counting of `len(paragraph.text.split())`: the number of maximal
non-whitespace blocks.  The boolean tracks being inside a block. -/
def countWordsAux : Bool → List Char → Nat
  | _, [] => 0
  | inWord, c :: rest =>
    if c.isWhitespace then countWordsAux false rest
    else (if inWord then 0 else 1) + countWordsAux true rest

/-- `len(text.split())` for a paragraph. -/
def wordCount (p : Paragraph) : Nat := countWordsAux false (paraText p)

/-- The structural fields of the property payload built by
`get_document_properties`. -/
structure DocProperties where
  page_count : Nat
  word_count : Nat
  paragraph_count : Nat
  table_count : Nat
deriving Repr, DecidableEq

/-- `get_document_properties`: the structural counters of the payload.  The
`page_count` field is produced from the section list. -/
def get_document_properties (doc : Doc) : DocProperties :=
  { page_count := doc.sections.length,
    word_count := (doc.paragraphs.map wordCount).sum,
    paragraph_count := doc.paragraphs.length,
    table_count := doc.tables.length }

/-! ## Concrete fixture documents used by witnesses and counterexamples -/

/-- A document whose only paragraph holds one run "The quick brown fox". -/
def foxDoc : Doc :=
  { paragraphs := [{ runs := [mkRun ("The quick brown fox".toList)] }] }

/-- The bold-only attribute set. -/
def boldTrue : FormatAttrs := { bold := some true }

/-- A document with "cat cat" in one run and "cat" in another. -/
def catDoc : Doc :=
  { paragraphs := [{ runs := [mkRun ("cat cat".toList)] },
                   { runs := [mkRun ("cat".toList)] }] }

/-- A document with three one-run paragraphs alpha/beta/gamma. -/
def threeParaDoc : Doc :=
  { paragraphs := [{ runs := [mkRun ("alpha".toList)] },
                   { runs := [mkRun ("beta".toList)] },
                   { runs := [mkRun ("gamma".toList)] }] }

/-- An existing paragraph style named Emphasis. -/
def emphasisStyle : Style :=
  { name := "Emphasis", styleType := .paragraph, fontBold := some true }

/-- A document already holding the Emphasis style. -/
def styledDoc : Doc := { styles := [emphasisStyle] }

/-- Two sections, no content. -/
def twoSectDoc : Doc := { sections := [{}, {}] }

/-- Two sections, plenty of content. -/
def twoSectBigDoc : Doc :=
  { sections := [{}, {}],
    paragraphs := List.replicate 7 { runs := [mkRun ("lots of words here".toList)] } }

/-! ## General list helper lemmas -/

theorem getD_set_self {α : Type} (l : List α) (i : Nat) (a d : α)
    (h : i < l.length) : (l.set i a).getD i d = a := by
  simp [List.getD_eq_getElem?_getD, List.getElem?_set_self, h]

theorem set_getD_self {α : Type} (l : List α) (i : Nat) (d : α)
    (h : i < l.length) : l.set i (l.getD i d) = l := by
  induction l generalizing i with
  | nil => simp at h
  | cons x xs ih =>
    cases i with
    | zero => simp [List.getD]
    | succ n =>
      simp only [List.length_cons, Nat.succ_lt_succ_iff] at h
      rw [List.getD_cons_succ, List.set_cons_succ, ih n h]

theorem set_eq_self_of_getD {α : Type} (l : List α) (i : Nat) (a d : α)
    (h : i < l.length) (ha : a = l.getD i d) : l.set i a = l := by
  rw [ha, set_getD_self l i d h]

theorem sum_map_indicator {α : Type} (l : List α) (p : α → Bool) :
    (l.map fun x => if p x then 1 else 0).sum = l.countP p := by
  induction l with
  | nil => rfl
  | cons x xs ih =>
    simp only [List.map_cons, List.sum_cons, List.countP_cons, ih]
    by_cases h : p x <;> simp [h] <;> omega

/-! ## Claim C1 and C2: `format_text` -/

theorem applyBold_text (a : FormatAttrs) (r : TextRun) :
    (applyBold a r).text = r.text := by
  unfold applyBold; split <;> rfl

theorem applyItalic_text (a : FormatAttrs) (r : TextRun) :
    (applyItalic a r).text = r.text := by
  unfold applyItalic; split <;> rfl

theorem applyUnderline_text (a : FormatAttrs) (r : TextRun) :
    (applyUnderline a r).text = r.text := by
  unfold applyUnderline; split <;> rfl

theorem applyColor_text (a : FormatAttrs) (r : TextRun) :
    (applyColor a r).text = r.text := by
  unfold applyColor
  repeat' split
  all_goals rfl

theorem applyFontSize_text (a : FormatAttrs) (r : TextRun) :
    (applyFontSize a r).text = r.text := by
  unfold applyFontSize
  repeat' split
  all_goals rfl

theorem applyFontName_text (a : FormatAttrs) (r : TextRun) :
    (applyFontName a r).text = r.text := by
  unfold applyFontName
  repeat' split
  all_goals rfl

theorem applyAttrs_text (a : FormatAttrs) (r : TextRun) :
    (applyAttrs a r).text = r.text := by
  unfold applyAttrs
  rw [applyFontName_text, applyFontSize_text, applyColor_text,
    applyUnderline_text, applyItalic_text, applyBold_text]

theorem cleared_runs_text (rs : List TextRun) :
    ((rs.map clearRun).map TextRun.text).flatten = [] := by
  induction rs with
  | nil => rfl
  | cons r rs ih => simp [clearRun, ih]

theorem take_slice_drop {α : Type} (l : List α) (s e : Nat) (h : s ≤ e) :
    l.take s ++ (l.take e).drop s ++ l.drop e = l := by
  have h1 : (l.take e).take s = l.take s := by
    rw [List.take_take, Nat.min_eq_left h]
  calc l.take s ++ (l.take e).drop s ++ l.drop e
      = (l.take e).take s ++ (l.take e).drop s ++ l.drop e := by rw [h1]
    _ = l.take e ++ l.drop e := by rw [List.take_append_drop]
    _ = l := List.take_append_drop e l

theorem formatRuns_text (p : Paragraph) (sn en : Nat) (attrs : FormatAttrs)
    (hsen : sn ≤ en) (hen : en ≤ (paraText p).length) :
    paraText { p with runs := p.runs.map clearRun
        ++ (if 0 < sn then [mkRun ((paraText p).take sn)] else [])
        ++ [applyAttrs attrs (mkRun (((paraText p).take en).drop sn))]
        ++ (if en < (paraText p).length then [mkRun ((paraText p).drop en)] else []) }
      = paraText p := by
  simp only [paraText, List.map_append, List.flatten_append]
  rw [show ({ p with runs := p.runs } : Paragraph).runs = p.runs from rfl] at *
  have hclear : ((p.runs.map clearRun).map TextRun.text).flatten = [] :=
    cleared_runs_text p.runs
  have htext : ∀ t : List Char, ([applyAttrs attrs (mkRun t)].map TextRun.text).flatten = t := by
    intro t
    simp [applyAttrs_text, mkRun]
  have hbefore : ((if 0 < sn then [mkRun ((paraText p).take sn)] else []).map
      TextRun.text).flatten = (paraText p).take sn := by
    by_cases h0 : 0 < sn
    · simp [h0, mkRun]
    · have : sn = 0 := by omega
      simp [h0, this]
  have hafter : ((if en < (paraText p).length then [mkRun ((paraText p).drop en)] else []).map
      TextRun.text).flatten = (paraText p).drop en := by
    by_cases h0 : en < (paraText p).length
    · simp [h0, mkRun]
    · have : (paraText p).drop en = [] := by
        apply List.drop_eq_nil_of_le
        omega
      simp [h0, this]
  simp only [paraText] at hclear hbefore hafter htext ⊢
  rw [hclear, hbefore, htext, hafter]
  simp only [List.nil_append]
  exact take_slice_drop _ sn en hsen

/-- C1: for a valid paragraph index and a valid offset range, and any
attribute combination, `format_text` succeeds and every paragraph's
concatenated run text is unchanged. -/
theorem format_text_preserves_paragraph_texts (doc : Doc) (pi s e : Int)
    (attrs : FormatAttrs)
    (hpi0 : 0 ≤ pi) (hpi : pi < (doc.paragraphs.length : Int))
    (hs : 0 ≤ s) (hse : s < e)
    (he : e ≤ ((paraText (doc.paragraphs.getD pi.toNat {})).length : Int)) :
    (format_text doc pi s e attrs).map (fun d => d.paragraphs.map paraText)
      = .ok (doc.paragraphs.map paraText) := by
  simp only [format_text]
  rw [if_neg (by omega), if_neg (by omega)]
  simp only [Except.map]
  congr 1
  rw [List.map_set]
  apply set_eq_self_of_getD _ _ _ (paraText {}) (by
    rw [List.length_map]
    omega)
  rw [List.getD_map]
  exact formatRuns_text (doc.paragraphs.getD pi.toNat {}) s.toNat e.toNat attrs
    (by omega) (by omega)

/-- C1 witness: the fox paragraph, range (4, 9), bold. -/
theorem format_text_preserves_paragraph_texts_witness :
    (0 : Int) ≤ 0 ∧ (0 : Int) < (foxDoc.paragraphs.length : Int) ∧
    (format_text foxDoc 0 4 9 boldTrue).map (fun d => d.paragraphs.map paraText)
      = .ok (foxDoc.paragraphs.map paraText) :=
  ⟨by decide, by decide,
   format_text_preserves_paragraph_texts foxDoc 0 4 9 boldTrue
     (by decide) (by decide) (by decide) (by decide) (by decide)⟩

/-- C2 counterexample: on "The quick brown fox" (one original run), range
(4, 9) with bold, the resulting runs are NOT exactly the three claimed runs:
the cleared shell of the original run is still present. -/
theorem format_text_three_runs_refuted :
    (format_text foxDoc 0 4 9 boldTrue).map
        (fun d => (d.paragraphs.getD 0 {}).runs)
      ≠ .ok [mkRun ("The ".toList),
             { mkRun ("quick".toList) with bold := some true },
             mkRun (" brown fox".toList)] := by
  decide

/-- C2 amended: for a valid range, `format_text` empties the existing runs in
place (they remain as zero-length runs) and appends up to three new runs:
`[0, start)` unformatted (omitted when start = 0), `[start, end)` with the
requested attributes, `[end, len)` unformatted (omitted when end = len). -/
theorem format_text_run_structure (doc : Doc) (pi s e : Int)
    (attrs : FormatAttrs)
    (hpi0 : 0 ≤ pi) (hpi : pi < (doc.paragraphs.length : Int))
    (hs : 0 ≤ s) (hse : s < e)
    (he : e ≤ ((paraText (doc.paragraphs.getD pi.toNat {})).length : Int)) :
    (format_text doc pi s e attrs).map
        (fun d => (d.paragraphs.getD pi.toNat {}).runs)
      = .ok ((doc.paragraphs.getD pi.toNat {}).runs.map clearRun
          ++ (if 0 < s.toNat then
                [mkRun ((paraText (doc.paragraphs.getD pi.toNat {})).take s.toNat)]
              else [])
          ++ [applyAttrs attrs (mkRun
                (((paraText (doc.paragraphs.getD pi.toNat {})).take e.toNat).drop s.toNat))]
          ++ (if e.toNat < (paraText (doc.paragraphs.getD pi.toNat {})).length then
                [mkRun ((paraText (doc.paragraphs.getD pi.toNat {})).drop e.toNat)]
              else [])) := by
  simp only [format_text]
  rw [if_neg (by omega), if_neg (by omega)]
  simp only [Except.map]
  congr 1
  rw [getD_set_self _ _ _ _ (by omega)]

/-- C2 witness: on the spec's own example the amended structure yields the
cleared shell followed by the three new runs. -/
theorem format_text_run_structure_witness :
    (format_text foxDoc 0 4 9 boldTrue).map
        (fun d => (d.paragraphs.getD (0 : Int).toNat {}).runs)
      = .ok [clearRun (mkRun ("The quick brown fox".toList)),
             mkRun ("The ".toList),
             applyAttrs boldTrue (mkRun ("quick".toList)),
             mkRun (" brown fox".toList)] := by
  rw [format_text_run_structure foxDoc 0 4 9 boldTrue
    (by decide) (by decide) (by decide) (by decide) (by decide)]
  decide

/-! ## Claim C3: `set_cell_border` -/

/-- C3 counterexample: a second identical call appends a duplicate border
element instead of replacing the first. -/
theorem set_cell_border_not_idempotent :
    set_cell_border
        (set_cell_border emptyCell ["top"] (some "single") (some "4") (some "0") (some "000000"))
        ["top"] (some "single") (some "4") (some "0") (some "000000")
      ≠ set_cell_border emptyCell ["top"] (some "single") (some "4") (some "0") (some "000000") := by
  decide

theorem set_cell_border_borderList (cell : Cell) (ks : List String)
    (v s sp c : Option String) :
    borderList (set_cell_border cell ks v s sp c)
      = borderList cell ++ edgeElems ks v s sp c := by
  induction ks generalizing cell with
  | nil => simp [set_cell_border, edgeElems, borderList]
  | cons k rest ih =>
    show borderList (List.foldl _ _ (k :: rest)) = _
    rw [List.foldl_cons]
    by_cases hk : isEdgeKey k = true
    · rw [show (if isEdgeKey k then
          (match cell.tcBorders with
           | none => { cell with tcBorders := some [mkBorderElem k v s sp c] }
           | some els => { cell with tcBorders := some (els ++ [mkBorderElem k v s sp c]) })
          else cell) = (match cell.tcBorders with
           | none => { cell with tcBorders := some [mkBorderElem k v s sp c] }
           | some els => { cell with tcBorders := some (els ++ [mkBorderElem k v s sp c]) })
          from if_pos hk]
      have hstep : ∀ cell2 : Cell, borderList (match cell2.tcBorders with
           | none => ({ cell2 with tcBorders := some [mkBorderElem k v s sp c] } : Cell)
           | some els => { cell2 with tcBorders := some (els ++ [mkBorderElem k v s sp c]) })
          = borderList cell2 ++ [mkBorderElem k v s sp c] := by
        intro cell2
        rcases cell2 with ⟨ps, tb⟩
        cases tb <;> simp [borderList]
      rw [show List.foldl _ _ rest = set_cell_border (match cell.tcBorders with
           | none => ({ cell with tcBorders := some [mkBorderElem k v s sp c] } : Cell)
           | some els => { cell with tcBorders := some (els ++ [mkBorderElem k v s sp c]) }) rest v s sp c
          from rfl]
      rw [ih, hstep]
      simp [edgeElems, List.filter_cons, hk, List.append_assoc]
    · rw [show (if isEdgeKey k then
          (match cell.tcBorders with
           | none => { cell with tcBorders := some [mkBorderElem k v s sp c] }
           | some els => { cell with tcBorders := some (els ++ [mkBorderElem k v s sp c]) })
          else cell) = cell from if_neg hk]
      rw [show List.foldl _ _ rest = set_cell_border cell rest v s sp c from rfl]
      rw [ih]
      simp [edgeElems, List.filter_cons, hk]

/-- C3 amended: each call appends one border element per requested edge to
the cell's container (creating it on first use); two identical calls leave
two copies of each edge's element, not one. -/
theorem set_cell_border_appends (cell : Cell) (ks : List String)
    (v s sp c : Option String) :
    borderList (set_cell_border cell ks v s sp c)
        = borderList cell ++ edgeElems ks v s sp c
    ∧ borderList (set_cell_border (set_cell_border cell ks v s sp c) ks v s sp c)
        = borderList cell ++ edgeElems ks v s sp c ++ edgeElems ks v s sp c := by
  refine ⟨set_cell_border_borderList cell ks v s sp c, ?_⟩
  rw [set_cell_border_borderList, set_cell_border_borderList]

/-! ## Claim C5: `delete_paragraph` -/

/-- C5: an in-range deletion shortens the paragraph list by exactly one and
shifts the paragraph previously at `i + 1` to index `i`; an out-of-range
index yields the index failure and no document. -/
theorem delete_paragraph_spec (doc : Doc) (i : Int) :
    (0 ≤ i → i < (doc.paragraphs.length : Int) →
      (delete_paragraph doc i).map
          (fun d => (d.paragraphs.length, d.paragraphs[i.toNat]?))
        = .ok (doc.paragraphs.length - 1, doc.paragraphs[i.toNat + 1]?))
    ∧ ((i < 0 ∨ (doc.paragraphs.length : Int) ≤ i) →
      delete_paragraph doc i = .error "Invalid paragraph index.") := by
  constructor
  · intro h0 hlt
    simp only [delete_paragraph]
    rw [if_neg (by omega)]
    simp only [Except.map]
    congr 1
    rw [List.eraseIdx_eq_take_drop_succ]
    have hlen : (doc.paragraphs.take i.toNat).length = i.toNat := by
      rw [List.length_take]
      omega
    rw [Prod.mk.injEq]
    constructor
    · rw [List.length_append, hlen, List.length_drop]
      omega
    · rw [List.getElem?_append, hlen]
      rw [if_neg (by omega)]
      rw [List.getElem?_drop]
      congr 1
      omega
  · intro h
    simp only [delete_paragraph]
    rw [if_pos (by omega)]

/-- C5 witness: deleting index 1 of a three-paragraph document, and the
failure at index 5. -/
theorem delete_paragraph_spec_witness :
    ((0 : Int) ≤ 1 ∧ (1 : Int) < (threeParaDoc.paragraphs.length : Int) ∧
      (delete_paragraph threeParaDoc 1).map
          (fun d => (d.paragraphs.length, d.paragraphs[(1 : Int).toNat]?))
        = .ok (threeParaDoc.paragraphs.length - 1,
               threeParaDoc.paragraphs[(1 : Int).toNat + 1]?))
    ∧ delete_paragraph threeParaDoc 5 = .error "Invalid paragraph index." :=
  ⟨⟨by decide, by decide,
    (delete_paragraph_spec threeParaDoc 1).1 (by decide) (by decide)⟩,
   (delete_paragraph_spec threeParaDoc 5).2 (by decide)⟩

/-! ## Claim C6: `create_style` -/

/-- C6: when the name already resolves to an existing style, `create_style`
returns that style and leaves the document unchanged, whatever the requested
type, base style, font or paragraph attributes. -/
theorem create_style_idempotent (doc : Doc) (name : String) (ty : StyleType)
    (base : Option String) (fb fi : Option Bool) (fs : Option Int)
    (fn fc : Option String) (pa : Option Alignment) (st : Style)
    (h : styleLookup doc.styles name = some st) :
    create_style doc name ty base fb fi fs fn fc pa = (doc, some st) := by
  simp only [create_style, h]

/-- C6 witness: re-requesting "Emphasis" with entirely different attributes
returns the stored style and the unchanged document. -/
theorem create_style_idempotent_witness :
    styleLookup styledDoc.styles "Emphasis" = some emphasisStyle ∧
    create_style styledDoc "Emphasis" .character (some "Nope") (some false)
        (some true) (some 99) (some "Arial") (some "red") (some .right)
      = (styledDoc, some emphasisStyle) :=
  ⟨by decide,
   create_style_idempotent styledDoc "Emphasis" .character (some "Nope")
     (some false) (some true) (some 99) (some "Arial") (some "red")
     (some .right) emphasisStyle (by decide)⟩

/-! ## Claim C7: invalid argument handling -/

/-- C7 counterexample: "LEFT" is outside the closed lowercase set
{left, center, right, justify}, yet the operation succeeds (the code
lowercases before the membership test). -/
theorem set_paragraph_alignment_closed_set_refuted :
    ¬ ("LEFT" = "left" ∨ "LEFT" = "center" ∨ "LEFT" = "right" ∨ "LEFT" = "justify")
    ∧ (set_paragraph_alignment foxDoc 0 "LEFT").isOk = true := by
  decide

/-- C7 amended: an alignment string whose lowercased form is outside the
closed set makes `set_paragraph_alignment` fail, and offsets violating
`0 ≤ start < end ≤ len` make `format_text` fail; in both cases no document
is produced, so nothing is mutated. -/
theorem invalid_argument_failures (doc : Doc) (i : Int) (a : String)
    (s e : Int) (attrs : FormatAttrs) :
    ((alignment_map.lookup (pyLower a)).isNone = true →
        (set_paragraph_alignment doc i a).isOk = false)
    ∧ ((s < 0 ∨ e > ((paraText (doc.paragraphs.getD i.toNat {})).length : Int) ∨ s ≥ e) →
        (format_text doc i s e attrs).isOk = false) := by
  constructor
  · intro h
    rw [Option.isNone_iff_eq_none] at h
    simp only [set_paragraph_alignment]
    split
    · rfl
    · rw [h]
      rfl
  · intro h
    simp only [format_text]
    split
    · rfl
    · rfl

/-- C7 witness: the unknown name "weird" and the inverted range (5, 3). -/
theorem invalid_argument_failures_witness :
    ((alignment_map.lookup (pyLower "weird")).isNone = true ∧
      (set_paragraph_alignment foxDoc 0 "weird").isOk = false)
    ∧ (((5 : Int) < 0 ∨ (3 : Int) > ((paraText (foxDoc.paragraphs.getD (0 : Int).toNat {})).length : Int) ∨ (5 : Int) ≥ 3) ∧
      (format_text foxDoc 0 5 3 boldTrue).isOk = false) :=
  ⟨⟨by decide, (invalid_argument_failures foxDoc 0 "weird" 5 3 boldTrue).1 (by decide)⟩,
   ⟨by decide, (invalid_argument_failures foxDoc 0 "weird" 5 3 boldTrue).2 (by decide)⟩⟩

/-! ## Claim C9: `page_count` -/

/-- C9: the `page_count` field equals the number of sections; in particular
it is determined by the section list alone, independent of how much content
a renderer would have to paginate. -/
theorem page_count_counts_sections (d1 d2 : Doc) (h : d1.sections = d2.sections) :
    (get_document_properties d1).page_count = d1.sections.length
    ∧ (get_document_properties d1).page_count = (get_document_properties d2).page_count := by
  constructor
  · rfl
  · simp [get_document_properties, h]

/-- C9 witness: an empty two-section document and a content-heavy
two-section document report the same `page_count`. -/
theorem page_count_counts_sections_witness :
    twoSectDoc.sections = twoSectBigDoc.sections ∧
    (get_document_properties twoSectDoc).page_count = twoSectDoc.sections.length ∧
    (get_document_properties twoSectDoc).page_count
      = (get_document_properties twoSectBigDoc).page_count :=
  ⟨by decide,
   (page_count_counts_sections twoSectDoc twoSectBigDoc (by decide)).1,
   (page_count_counts_sections twoSectDoc twoSectBigDoc (by decide)).2⟩

/-! ## Claim C4 and C10: find and replace -/

theorem isPrefixOf_iff (l₁ l₂ : List Char) :
    l₁.isPrefixOf l₂ = true ↔ ∃ t, l₂ = l₁ ++ t := by
  induction l₁ generalizing l₂ with
  | nil => simp [List.isPrefixOf]
  | cons a as ih =>
    cases l₂ with
    | nil => simp [List.isPrefixOf]
    | cons b bs =>
      simp only [List.isPrefixOf, Bool.and_eq_true, beq_iff_eq, ih, List.cons_append]
      constructor
      · rintro ⟨rfl, t, rfl⟩
        exact ⟨t, rfl⟩
      · rintro ⟨t, ht⟩
        injection ht with h1 h2
        exact ⟨h1.symm, t, h2⟩

theorem pyContains_iff (old s : List Char) :
    pyContains old s = true ↔ ∃ u v, s = u ++ old ++ v := by
  induction s with
  | nil =>
    constructor
    · intro h
      have hold : old = [] := by
        simpa [pyContains, List.isEmpty_iff] using h
      exact ⟨[], [], by simp [hold]⟩
    · rintro ⟨u, v, huv⟩
      have h2 := huv.symm
      simp only [List.append_eq_nil] at h2
      simp [pyContains, h2.1.2]
  | cons c cs ih =>
    simp only [pyContains, Bool.or_eq_true, isPrefixOf_iff, ih]
    constructor
    · rintro (⟨t, ht⟩ | ⟨u, v, huv⟩)
      · exact ⟨[], t, by simp [ht]⟩
      · exact ⟨c :: u, v, by simp [huv]⟩
    · rintro ⟨u, v, huv⟩
      cases u with
      | nil =>
        left
        exact ⟨v, by simpa using huv⟩
      | cons x xs =>
        right
        simp only [List.cons_append] at huv
        injection huv with h1 h2
        exact ⟨xs, v, h2⟩

theorem flatten_mem_decomp {α : Type} (L : List (List α)) (a : List α)
    (h : a ∈ L) : ∃ u v, L.flatten = u ++ a ++ v := by
  obtain ⟨s, t, rfl⟩ := List.append_of_mem h
  exact ⟨s.flatten, t.flatten, by simp [List.flatten_append, List.append_assoc]⟩

theorem pyContains_of_sub (old m s : List Char) (hm : pyContains old m = true)
    (u v : List Char) (hs : s = u ++ m ++ v) : pyContains old s = true := by
  rw [pyContains_iff] at hm ⊢
  obtain ⟨a, b, rfl⟩ := hm
  exact ⟨u ++ a, b ++ v, by simp [hs, List.append_assoc]⟩

theorem run_text_in_para (p : Paragraph) (r : TextRun) (hr : r ∈ p.runs)
    (old : List Char) (h : pyContains old r.text = true) :
    pyContains old (paraText p) = true := by
  have hmem : r.text ∈ p.runs.map TextRun.text := List.mem_map_of_mem _ hr
  obtain ⟨u, v, hdecomp⟩ := flatten_mem_decomp _ _ hmem
  exact pyContains_of_sub old r.text (paraText p) h u v (by rw [paraText, hdecomp])

theorem replaceRun_fst (old new : List Char) (r : TextRun) :
    (replaceRun old new r).1
      = if pyContains old r.text then { r with text := pyReplace old new r.text }
        else r := by
  unfold replaceRun
  split <;> rfl

theorem replaceRun_snd (old new : List Char) (r : TextRun) :
    (replaceRun old new r).2 = if pyContains old r.text then 1 else 0 := by
  unfold replaceRun
  split <;> rfl

theorem replaceRun_id (old new : List Char) (r : TextRun)
    (h : ¬ pyContains old r.text = true) : (replaceRun old new r).1 = r := by
  unfold replaceRun
  rw [if_neg h]

theorem replacePara_runs (old new : List Char) (p : Paragraph) :
    (replacePara old new p).1.runs
      = p.runs.map (fun r => (replaceRun old new r).1) := by
  unfold replacePara
  split
  · simp [List.map_map, Function.comp]
  · rename_i hguard
    have hid : ∀ r ∈ p.runs, (replaceRun old new r).1 = r := by
      intro r hr
      apply replaceRun_id
      intro hc
      exact hguard (run_text_in_para p r hr old hc)
    show p.runs = _
    rw [List.map_congr_left hid]
    simp

theorem replacePara_count (old new : List Char) (p : Paragraph) :
    (replacePara old new p).2
      = p.runs.countP (fun r => pyContains old r.text) := by
  unfold replacePara
  split
  · simp only [List.map_map]
    have hsnd : (Prod.snd ∘ replaceRun old new)
        = (fun r : TextRun => if pyContains old r.text then 1 else 0) := by
      funext r
      exact replaceRun_snd old new r
    rw [hsnd, sum_map_indicator]
  · rename_i hguard
    show 0 = _
    symm
    apply List.countP_eq_zero.mpr
    intro r hr hc
    exact hguard (run_text_in_para p r hr old hc)

theorem replaceCell_runs (old new : List Char) (c : Cell) :
    cellRuns (replaceCell old new c).1
      = (cellRuns c).map (fun r => (replaceRun old new r).1) := by
  unfold replaceCell cellRuns
  simp only [List.map_map]
  rw [List.map_flatten]
  simp only [List.map_map]
  congr 1
  apply List.map_congr_left
  intro p hp
  exact replacePara_runs old new p

theorem replaceCell_count (old new : List Char) (c : Cell) :
    (replaceCell old new c).2
      = (cellRuns c).countP (fun r => pyContains old r.text) := by
  unfold replaceCell cellRuns
  simp only [List.map_map]
  rw [List.countP_flatten]
  simp only [List.map_map]
  congr 1
  apply List.map_congr_left
  intro p hp
  exact replacePara_count old new p

theorem replaceTable_runs (old new : List Char) (t : Table) :
    tableRuns (replaceTable old new t).1
      = (tableRuns t).map (fun r => (replaceRun old new r).1) := by
  unfold replaceTable tableRuns
  simp only [List.map_map]
  rw [List.map_flatten]
  simp only [List.map_map]
  congr 1
  apply List.map_congr_left
  intro row hrow
  show (((row.map (replaceCell old new)).map Prod.fst).map cellRuns).flatten
      = ((row.map cellRuns).flatten).map (fun r => (replaceRun old new r).1)
  simp only [List.map_map]
  rw [List.map_flatten]
  simp only [List.map_map]
  congr 1
  apply List.map_congr_left
  intro c hc
  exact replaceCell_runs old new c

theorem replaceTable_count (old new : List Char) (t : Table) :
    (replaceTable old new t).2
      = (tableRuns t).countP (fun r => pyContains old r.text) := by
  unfold replaceTable tableRuns
  simp only [List.map_map]
  rw [List.countP_flatten]
  simp only [List.map_map]
  congr 1
  apply List.map_congr_left
  intro row hrow
  show ((row.map (replaceCell old new)).map Prod.snd).sum
      = ((row.map cellRuns).flatten).countP (fun r => pyContains old r.text)
  simp only [List.map_map]
  rw [List.countP_flatten]
  simp only [List.map_map]
  congr 1
  apply List.map_congr_left
  intro c hc
  exact replaceCell_count old new c

theorem find_and_replace_runs (doc : Doc) (old new : List Char) :
    docRuns (find_and_replace_text doc old new).1
      = (docRuns doc).map (fun r => (replaceRun old new r).1) := by
  unfold find_and_replace_text docRuns
  simp only [List.map_map, List.map_append]
  rw [List.map_flatten, List.map_flatten]
  simp only [List.map_map]
  congr 2
  · apply List.map_congr_left
    intro p hp
    exact replacePara_runs old new p
  · apply List.map_congr_left
    intro t ht
    exact replaceTable_runs old new t

theorem find_and_replace_count (doc : Doc) (old new : List Char) :
    (find_and_replace_text doc old new).2
      = (docRuns doc).countP (fun r => pyContains old r.text) := by
  unfold find_and_replace_text docRuns
  simp only [List.map_map, List.countP_append]
  rw [List.countP_flatten, List.countP_flatten]
  simp only [List.map_map]
  congr 2
  · apply List.map_congr_left
    intro p hp
    exact replacePara_count old new p
  · apply List.map_congr_left
    intro t ht
    exact replaceTable_count old new t

/-- C4: `find_and_replace_text` rewrites exactly the runs whose text contains
`old` as a substring (across body paragraphs and every table-cell paragraph),
and the count is the number of such runs; on the spec's example the count is
2 and the texts become "dog dog" and "dog". -/
theorem replaceAll_per_run_spec (doc : Doc) (old new : List Char) :
    docRuns (find_and_replace_text doc old new).1
        = (docRuns doc).map (fun r =>
            if pyContains old r.text then { r with text := pyReplace old new r.text }
            else r)
    ∧ (find_and_replace_text doc old new).2
        = (docRuns doc).countP (fun r => pyContains old r.text)
    ∧ (find_and_replace_text catDoc ("cat".toList) ("dog".toList)).2 = 2
    ∧ (find_and_replace_text catDoc ("cat".toList) ("dog".toList)).1.paragraphs.map paraText
        = ["dog dog".toList, "dog".toList] := by
  refine ⟨?_, find_and_replace_count doc old new, by decide, by decide⟩
  rw [find_and_replace_runs]
  apply List.map_congr_left
  intro r hr
  rw [replaceRun_fst]

/-- C10: when no run in the document contains the needle, `search_and_replace`
reports no occurrences and leaves the on-disk document exactly as it was. -/
theorem search_and_replace_no_occurrences (disk : Doc) (f r : List Char)
    (h : (docRuns disk).all (fun run => !(pyContains f run.text)) = true) :
    search_and_replace disk f r = (.noOccurrences, disk) := by
  have hc : (find_and_replace_text disk f r).2 = 0 := by
    rw [find_and_replace_count]
    apply List.countP_eq_zero.mpr
    intro a ha
    have h2 := List.all_eq_true.mp h a ha
    simp only [Bool.not_eq_true'] at h2
    simp [h2]
  simp [search_and_replace, hc]

/-- C10 witness: the cat document contains no "zebra". -/
theorem search_and_replace_no_occurrences_witness :
    (docRuns catDoc).all (fun run => !(pyContains ("zebra".toList) run.text)) = true
    ∧ search_and_replace catDoc ("zebra".toList) ("dog".toList)
        = (.noOccurrences, catDoc) :=
  ⟨by decide,
   search_and_replace_no_occurrences catDoc ("zebra".toList) ("dog".toList) (by decide)⟩

/-! ## Claim C8: `add_table` -/

theorem getD_set_ne {α : Type} (l : List α) (i j : Nat) (a d : α) (h : i ≠ j) :
    (l.set i a).getD j d = l.getD j d := by
  simp [List.getD_eq_getElem?_getD, List.getElem?_set_ne h]

theorem getD_oob {α : Type} (l : List α) (i : Nat) (d : α) (h : l.length ≤ i) :
    l.getD i d = d := by
  simp [List.getD_eq_getElem?_getD, List.getElem?_eq_none h]

theorem getD_replicate {α : Type} (n i : Nat) (a d : α) (h : i < n) :
    (List.replicate n a).getD i d = a := by
  simp [List.getD_eq_getElem?_getD, List.getElem?_replicate, h]

theorem getD_take {α : Type} (l : List α) (n i : Nat) (d : α) (h : i < n) :
    (l.take n).getD i d = l.getD i d := by
  simp [List.getD_eq_getElem?_getD, List.getElem?_take, h]

theorem foldl_fun_congr {α β : Type} (f g : α → β → α)
    (h : ∀ a b, f a b = g a b) :
    ∀ (l : List β) (init : α), l.foldl f init = l.foldl g init := by
  intro l
  induction l with
  | nil => intro init; rfl
  | cons x xs ih =>
    intro init
    simp only [List.foldl_cons, h, ih]

/-- Folding position-keyed updates over an enumerated value list: position
`j` of the result holds the update at `j` when `j` is covered and in range,
and the original entry otherwise. -/
theorem foldl_enumFrom_set {α β : Type} (upd : α → β → α) (da : α) (db : β) :
    ∀ (vals : List β) (k : Nat) (l : List α) (j : Nat),
    ((List.enumFrom k vals).foldl
        (fun acc p => acc.set p.1 (upd (acc.getD p.1 da) p.2)) l).getD j da
      = if k ≤ j ∧ j < k + vals.length ∧ j < l.length
        then upd (l.getD j da) (vals.getD (j - k) db)
        else l.getD j da := by
  intro vals
  induction vals with
  | nil =>
    intro k l j
    simp only [List.enumFrom, List.foldl_nil, List.length_nil]
    rw [if_neg (by omega)]
  | cons v vs ih =>
    intro k l j
    simp only [List.enumFrom, List.foldl_cons]
    rw [ih (k + 1) (l.set k (upd (l.getD k da) v)) j]
    by_cases hjk : j = k
    · subst hjk
      rw [if_neg (by omega)]
      by_cases hl : j < l.length
      · rw [getD_set_self _ _ _ _ hl,
          if_pos (by simp only [List.length_cons]; omega)]
        simp
      · rw [List.set_eq_of_length_le (by omega),
          if_neg (by simp only [List.length_cons]; omega)]
    · rw [getD_set_ne _ _ _ _ _ (by omega), List.length_set]
      by_cases hc : k + 1 ≤ j ∧ j < k + 1 + vs.length ∧ j < l.length
      · rw [if_pos hc, if_pos (by simp only [List.length_cons]; omega)]
        congr 1
        have hj1 : j - k = (j - (k + 1)) + 1 := by omega
        rw [hj1, List.getD_cons_succ]
      · rw [if_neg hc, if_neg (by simp only [List.length_cons]; omega)]

/-- Collapsing the cell-by-cell fill of row `i` into a single row update. -/
theorem innerFold_eq (cs : List (List Cell)) (i : Nat)
    (pairs : List (Nat × String)) :
    pairs.foldl (fun cs2 jv => setCellText cs2 i jv.1 jv.2) cs
      = cs.set i (pairs.foldl
          (fun row jv => row.set jv.1 (setCellContent (row.getD jv.1 emptyCell) jv.2))
          (cs.getD i [])) := by
  induction pairs generalizing cs with
  | nil =>
    simp only [List.foldl_nil]
    by_cases h : i < cs.length
    · exact (set_getD_self cs i [] h).symm
    · exact (List.set_eq_of_length_le (by omega)).symm
  | cons jv rest ih =>
    simp only [List.foldl_cons]
    rw [ih]
    have h1 : setCellText cs i jv.1 jv.2
        = cs.set i ((cs.getD i []).set jv.1
            (setCellContent ((cs.getD i []).getD jv.1 emptyCell) jv.2)) := rfl
    rw [h1, List.set_set]
    congr 1
    by_cases h : i < cs.length
    · rw [getD_set_self _ _ _ _ h]
    · rw [List.set_eq_of_length_le (by omega)]
      rw [getD_oob cs i [] (by omega)]
      rfl

theorem cellText_setCellContent (c : Cell) (s : String) :
    cellText (setCellContent c s) = s.toList := by
  simp [cellText, setCellContent, textPara, paraText, mkRun, List.intercalate]

theorem cellText_emptyCell : cellText emptyCell = [] := rfl

/-- C8: `add_table` fills exactly the first `min(rows, len(data))` rows and,
within row `i`, the first `min(cols, len(data[i]))` columns with the given
values; every other cell of the grid keeps its default empty content. -/
theorem add_table_fills (doc : Doc) (rows cols : Nat) (data : List (List String))
    (i j : Nat) (hi : i < rows) (hj : j < cols) :
    ((add_table doc rows cols data).tables.getLast?).map
        (fun t => cellText ((t.cells.getD i []).getD j emptyCell))
      = some (if i < data.length ∧ j < (data.getD i []).length
              then ((data.getD i []).getD j "").toList
              else []) := by
  simp only [add_table]
  rw [List.getLast?_concat]
  simp only [Option.map_some']
  congr 1
  have houter : (data.take rows).enum.foldl
      (fun cs irow => (irow.2.take cols).enum.foldl
        (fun cs2 jv => setCellText cs2 irow.1 jv.1 jv.2) cs)
      (List.replicate rows (List.replicate cols emptyCell))
      = (data.take rows).enum.foldl
        (fun acc p => acc.set p.1
          ((fun row rd => (rd.take cols).enum.foldl
            (fun row2 jv => row2.set jv.1 (setCellContent (row2.getD jv.1 emptyCell) jv.2))
            row) (acc.getD p.1 []) p.2))
        (List.replicate rows (List.replicate cols emptyCell)) := by
    apply foldl_fun_congr
    intro cs irow
    exact innerFold_eq cs irow.1 ((irow.2.take cols).enum)
  rw [houter]
  have h1 := foldl_enumFrom_set
    (fun row rd => (rd.take cols).enum.foldl
      (fun row2 jv => row2.set jv.1 (setCellContent (row2.getD jv.1 emptyCell) jv.2))
      row)
    ([] : List Cell) ([] : List String) (data.take rows) 0
    (List.replicate rows (List.replicate cols emptyCell)) i
  rw [show (data.take rows).enum = List.enumFrom 0 (data.take rows) from rfl, h1]
  rw [List.length_take, List.length_replicate]
  by_cases hid : i < data.length
  · rw [if_pos (by omega), Nat.sub_zero, getD_take data rows i [] hi,
      getD_replicate rows i _ _ hi]
    have h2 := foldl_enumFrom_set setCellContent emptyCell ""
      ((data.getD i []).take cols) 0 (List.replicate cols emptyCell) j
    rw [show ((data.getD i []).take cols).enum
        = List.enumFrom 0 ((data.getD i []).take cols) from rfl]
    rw [h2, List.length_take, List.length_replicate, Nat.sub_zero]
    by_cases hjd : j < (data.getD i []).length
    · rw [if_pos (by omega), getD_take _ cols j "" hj, cellText_setCellContent,
        if_pos (And.intro hid hjd)]
    · rw [if_neg (by omega), getD_replicate cols j _ _ hj, cellText_emptyCell,
        if_neg (fun h => hjd h.2)]
  · rw [if_neg (by omega), getD_replicate rows i _ _ hi,
      getD_replicate cols j _ _ hj, cellText_emptyCell,
      if_neg (fun h => hid h.1)]

/-- C8 witness: `addTable(2, 2, [["a","b"],["c"]])` yields a/b/c and an
empty cell (1,1). -/
theorem add_table_fills_witness :
    (((add_table blankDoc 2 2 [["a", "b"], ["c"]]).tables.getLast?).map
        (fun t => cellText ((t.cells.getD 0 []).getD 0 emptyCell)) = some ("a".toList))
    ∧ (((add_table blankDoc 2 2 [["a", "b"], ["c"]]).tables.getLast?).map
        (fun t => cellText ((t.cells.getD 0 []).getD 1 emptyCell)) = some ("b".toList))
    ∧ (((add_table blankDoc 2 2 [["a", "b"], ["c"]]).tables.getLast?).map
        (fun t => cellText ((t.cells.getD 1 []).getD 0 emptyCell)) = some ("c".toList))
    ∧ (((add_table blankDoc 2 2 [["a", "b"], ["c"]]).tables.getLast?).map
        (fun t => cellText ((t.cells.getD 1 []).getD 1 emptyCell)) = some []) :=
  ⟨(add_table_fills blankDoc 2 2 [["a", "b"], ["c"]] 0 0 (by decide) (by decide)).trans (by decide),
   (add_table_fills blankDoc 2 2 [["a", "b"], ["c"]] 0 1 (by decide) (by decide)).trans (by decide),
   (add_table_fills blankDoc 2 2 [["a", "b"], ["c"]] 1 0 (by decide) (by decide)).trans (by decide),
   (add_table_fills blankDoc 2 2 [["a", "b"], ["c"]] 1 1 (by decide) (by decide)).trans (by decide)⟩

end WordServer
